import Mathlib

/-!
Verification of the CS162 file-system core (buffer cache + indexed inode layer)
against its natural-language specification.

The development shallowly embeds the C sources:
  * `src/pintos/src/filesys/bufcache.c` and its extended copy in
    `src/unnamed/part_003` (buffer cache with LRU eviction, readiness flags,
    hit/access statistics, flush, reset);
  * `src/pintos/src/filesys/inode.c` and its copy in `src/unnamed/part_003`
    (on-disk inode record, `byte_to_sector`, allocation, `inode_write_at`).

Machine integers (`block_sector_t`, `off_t`, `size_t`) are embedded as `Nat`
or `Int`; `(block_sector_t) -1` is the explicit constant `2^32 - 1`.  The
embedding is sequential: lock acquire/release is tracked by a depth counter,
and each `cond_wait` (which releases the global lock so that other threads
may run) is modelled by applying an environment step `env : Bufcache →
Bufcache`; the external API functions run with the identity environment.
Disk traffic is returned as an explicit event list, so "performs no disk
read" is the absence of `IOEv.read` events.
-/

/-! ### Constants shared by both subsystems (bufcache.c, inode.c) -/

def BLOCK_SECTOR_SIZE : Nat := 512

def NUM_ENTRIES : Nat := 64

instance : NeZero NUM_ENTRIES := ⟨by decide⟩

/-- INVALID_SECTOR as defined in `src/unnamed/part_003` (`0xffff`). -/
def INVALID_SECTOR : Nat := 0xffff

/-- The value `(block_sector_t) -1`, which `byte_to_sector` returns for a
byte offset that has no backing sector (`NOT_PRESENT`). -/
def NOT_PRESENT : Nat := 4294967295

def INODE_MAGIC : Nat := 0x494e4f44

def DIRECT_BLOCK_COUNT : Nat := 123

def INDIRECT_BLOCK_COUNT : Nat := 128

/-! ### On-disk inode record

`struct inode_disk` from `src/pintos/src/filesys/inode.c` lines 21-29.  The
`direct_blocks` array is embedded as a read function on `Int` indices (the C
indexes it with a signed `off_t`); the word contents of indirect-table
sectors are supplied by a read function `rd : Nat → Int → Nat` standing for
`bufcache_read` of a whole `struct indirect_block`. -/

structure InodeDisk where
  direct_blocks : Int → Nat
  indirect_block : Nat
  doubly_indirect_block : Nat
  isdir : Nat
  length : Int

/-- `byte_to_sector` from `src/pintos/src/filesys/inode.c` lines 62-97 (the
copy in `src/unnamed/part_003` lines 286-330 computes the same branches).
C integer division and remainder on signed operands truncate toward zero,
hence `Int.tdiv` / `Int.tmod`. -/
def byte_to_sector (rd : Nat → Int → Nat) (d : InodeDisk) (pos : Int) : Nat :=
  if pos < d.length then
    let index : Int := Int.tdiv pos (BLOCK_SECTOR_SIZE : Int)
    if index < (DIRECT_BLOCK_COUNT : Int) then
      d.direct_blocks index
    else if index < ((DIRECT_BLOCK_COUNT + INDIRECT_BLOCK_COUNT : Nat) : Int) then
      rd d.indirect_block (index - (DIRECT_BLOCK_COUNT : Int))
    else
      let remaining : Int := index - (DIRECT_BLOCK_COUNT : Int) - (INDIRECT_BLOCK_COUNT : Int)
      rd (rd d.doubly_indirect_block (Int.tdiv remaining (INDIRECT_BLOCK_COUNT : Int)))
         (Int.tmod remaining (INDIRECT_BLOCK_COUNT : Int))
  else NOT_PRESENT

/-- Restatement of claim C1's description of `byte_to_sector`, written from
the claim's words over a natural-number byte offset: `NOT_PRESENT` at or past
the length, otherwise the direct entry below index 123, the single-indirect
entry below 123 + 128, and the doubly-indirect entry
`(inner sector (block_index - 251) / 128)[(block_index - 251) % 128]` above. -/
def byte_to_sector_claim (rd : Nat → Int → Nat) (d : InodeDisk) (offset : Nat) : Nat :=
  if (offset : Int) ≥ d.length then NOT_PRESENT
  else
    let block_index : Nat := offset / BLOCK_SECTOR_SIZE
    if block_index < 123 then d.direct_blocks (block_index : Int)
    else if block_index < 123 + 128 then
      rd d.indirect_block ((block_index - 123 : Nat) : Int)
    else
      rd (rd d.doubly_indirect_block (((block_index - 251) / 128 : Nat) : Int))
         (((block_index - 251) % 128 : Nat) : Int)

theorem byte_to_sector_eq_claim (rd : Nat → Int → Nat) (d : InodeDisk) (offset : Nat) :
    byte_to_sector rd d (offset : Int) = byte_to_sector_claim rd d offset := by
  simp only [byte_to_sector, byte_to_sector_claim, BLOCK_SECTOR_SIZE, DIRECT_BLOCK_COUNT,
    INDIRECT_BLOCK_COUNT]
  rw [show Int.tdiv (offset : Int) ((512 : Nat) : Int) = ((offset / 512 : Nat) : Int) from rfl]
  split_ifs with h1 h2 h3 h4 h5 h6 h7 h8 h9 h10 h11 h12 <;> try rfl
  all_goals try omega
  · congr 1
    omega
  · rw [show ((offset / 512 : Nat) : Int) - ((123 : Nat) : Int) - ((128 : Nat) : Int)
        = ((offset / 512 - 251 : Nat) : Int) by omega]
    rw [show Int.tdiv ((offset / 512 - 251 : Nat) : Int) ((128 : Nat) : Int)
        = (((offset / 512 - 251) / 128 : Nat) : Int) from rfl]
    rw [show Int.tmod ((offset / 512 - 251 : Nat) : Int) ((128 : Nat) : Int)
        = (((offset / 512 - 251) % 128 : Nat) : Int) from rfl]

/-- C1: for every inode record, indirect-table contents and byte offset,
`byte_to_sector` returns `NOT_PRESENT` at or past the inode's length and
otherwise resolves the offset through the direct, single-indirect or
doubly-indirect tier exactly as the claim describes; this is stated as
pointwise equality with `byte_to_sector_claim`, the function written from
the claim's own words. -/
theorem c1_byte_to_sector_matches_claim :
    ∀ (rd : Nat → Int → Nat) (d : InodeDisk) (offset : Nat),
      byte_to_sector rd d (offset : Int) = byte_to_sector_claim rd d offset :=
  byte_to_sector_eq_claim

/-! ### On-disk layout of the inode record (claim C6)

The repository declares `struct inode_disk` twice with different field
orders: `src/pintos/src/filesys/inode.c` lines 21-29 and
`src/unnamed/part_003` lines 232-240.  Each layout is the ordered list of
fields with their byte sizes (`block_sector_t`, `off_t`, `uint32_t` and
`unsigned` are four bytes each on the 32-bit target). -/

inductive FieldTag where
  | direct
  | sIndirect
  | dIndirect
  | isDir
  | fileLength
  | magic
deriving DecidableEq

/-- Layout of `struct inode_disk` in `src/pintos/src/filesys/inode.c`:
`direct_blocks[123]`, `indirect_block`, `doubly_indirect_block`, `isdir`,
`length`, `magic`. -/
def inode_disk_layout : List (FieldTag × Nat) :=
  [(FieldTag.direct, 123 * 4), (FieldTag.sIndirect, 4), (FieldTag.dIndirect, 4),
   (FieldTag.isDir, 4), (FieldTag.fileLength, 4), (FieldTag.magic, 4)]

/-- Layout of `struct inode_disk` in `src/unnamed/part_003`: `length`,
`isdir`, `direct[123]`, `s_indirect`, `d_indirect`, `magic`. -/
def inode_disk_layout_part3 : List (FieldTag × Nat) :=
  [(FieldTag.fileLength, 4), (FieldTag.isDir, 4), (FieldTag.direct, 123 * 4),
   (FieldTag.sIndirect, 4), (FieldTag.dIndirect, 4), (FieldTag.magic, 4)]

def layoutSize (l : List (FieldTag × Nat)) : Nat := (l.map Prod.snd).sum

/-- Field order asserted by claim C6: 123 direct words, the single-indirect
pointer, the doubly-indirect pointer, `is_dir`, `length`, then `magic`. -/
def claimedOrder (l : List (FieldTag × Nat)) : Prop :=
  l = [(FieldTag.direct, 123 * 4), (FieldTag.sIndirect, 4), (FieldTag.dIndirect, 4),
       (FieldTag.isDir, 4), (FieldTag.fileLength, 4), (FieldTag.magic, 4)]

instance (l : List (FieldTag × Nat)) : Decidable (claimedOrder l) := by
  unfold claimedOrder
  infer_instance

/-- C6 counterexample: the claim's field order fails on the repository's own
second declaration of the on-disk inode record — `struct inode_disk` in
`src/unnamed/part_003` puts `length` and `isdir` first, not the direct
array. -/
theorem c6_part3_layout_not_claimed_order : ¬ claimedOrder inode_disk_layout_part3 := by
  decide

/-- C6 (amended): the record in `src/pintos/src/filesys/inode.c` is exactly
one 512-byte sector with the claimed field order and the magic constant
`0x494E4F44` last; the copy in `src/unnamed/part_003` is also exactly 512
bytes and also ends with `magic`, but orders its fields `length`, `is_dir`,
the 123 direct words, `s_indirect`, `d_indirect`, `magic`. -/
theorem c6_inode_disk_layout_amended :
    claimedOrder inode_disk_layout
    ∧ layoutSize inode_disk_layout = 512
    ∧ INODE_MAGIC = 0x494E4F44
    ∧ layoutSize inode_disk_layout_part3 = 512
    ∧ inode_disk_layout_part3.getLast? = some (FieldTag.magic, 4)
    ∧ inode_disk_layout_part3
        = [(FieldTag.fileLength, 4), (FieldTag.isDir, 4), (FieldTag.direct, 123 * 4),
           (FieldTag.sIndirect, 4), (FieldTag.dIndirect, 4), (FieldTag.magic, 4)] := by
  refine ⟨by decide, by decide, by decide, by decide, by decide, by decide⟩

/-! ### Free map and inode allocation (claim C2)

The free map is embedded as a counter of sectors it can still grant, the
next sector number it will hand out, and the list of sectors granted and
not yet released.  `blocks` is the buffer-cache view of whole-sector word
arrays used by the indirect tables.  `free_map_allocate (1, &s)` either
fails (exhausted) or grants the next sector. -/

structure FreeMapDisk where
  freeCnt : Nat
  nextSector : Nat
  claimed : List Nat
  blocks : Nat → Int → Nat

def free_map_allocate1 (st : FreeMapDisk) : Option Nat × FreeMapDisk :=
  if st.freeCnt = 0 then (none, st)
  else (some st.nextSector,
    { st with freeCnt := st.freeCnt - 1, nextSector := st.nextSector + 1,
              claimed := st.claimed ++ [st.nextSector] })

def free_map_release1 (st : FreeMapDisk) (s : Nat) : FreeMapDisk :=
  { st with claimed := st.claimed.erase s }

/-- A full-sector `bufcache_write` of the word array `tbl` to sector `s`. -/
def writeWords (st : FreeMapDisk) (s : Nat) (tbl : Int → Nat) : FreeMapDisk :=
  { st with blocks := fun t i => if t = s then tbl i else st.blocks t i }

/-- `inode_allocate_sector` from `src/pintos/src/filesys/inode.c` lines
112-121: a zero field means "unallocated"; on allocation the fresh sector is
filled through a blind full-sector write (the C writes an uninitialised
stack buffer; all-zero words stand in for its contents, which nothing
verified here inspects).  Returns (success, resulting field value, state). -/
def inode_allocate_sector (v : Nat) (st : FreeMapDisk) : Bool × Nat × FreeMapDisk :=
  if v ≠ 0 then (true, v, st)
  else
    match free_map_allocate1 st with
    | (none, st1) => (false, v, st1)
    | (some s, st1) => (true, s, writeWords st1 s (fun _ => 0))

/-- Inner loop of `inode_allocate_indirect` (inode.c lines 134-138):
allocate `k` data sectors into slots `i, i+1, ...` of the local table,
stopping with failure as soon as one allocation fails (the partially filled
local table is then discarded, because the write-back is skipped).  The
remaining iteration count `k` drives the recursion; the initial call uses
`i = 0` and `k = count`. -/
def inode_allocate_table (tbl : Int → Nat) (st : FreeMapDisk) (i : Nat) :
    Nat → Option (Int → Nat) × FreeMapDisk
  | 0 => (some tbl, st)
  | k + 1 =>
    match inode_allocate_sector (tbl (i : Int)) st with
    | (false, _, st1) => (none, st1)
    | (true, s, st1) =>
        inode_allocate_table (fun j => if j = (i : Int) then s else tbl j) st1 (i + 1) k

/-- `inode_allocate_indirect` from inode.c lines 124-142.  Returns
(success, resulting pointer-field value, state); on failure after the
pointer sector itself was installed, the field keeps the new pointer, as in
the C where `*sector` was already overwritten. -/
def inode_allocate_indirect (ptr : Nat) (count : Nat) (st : FreeMapDisk) :
    Bool × Nat × FreeMapDisk :=
  match inode_allocate_sector ptr st with
  | (false, v, st1) => (false, v, st1)
  | (true, p, st1) =>
    match inode_allocate_table (st1.blocks p) st1 0 count with
    | (none, st2) => (false, p, st2)
    | (some tbl2, st2) => (true, p, writeWords st2 p tbl2)

/-- Loop of `inode_allocate_doubly_indirect` (inode.c lines 154-161): for
each needed second-level block, allocate an indirect table of up to 128 data
sectors into slot `j` of the outer table.  The remaining iteration count
drives the recursion; the initial call uses `j = 0` and the number of
second-level blocks as the count. -/
def inode_allocate_doubly_loop (tbl : Int → Nat) (st : FreeMapDisk) (j : Nat) (count : Nat) :
    Nat → Option (Int → Nat) × FreeMapDisk
  | 0 => (some tbl, st)
  | rest + 1 =>
    let numTo := if count < INDIRECT_BLOCK_COUNT then count else INDIRECT_BLOCK_COUNT
    match inode_allocate_indirect (tbl (j : Int)) numTo st with
    | (false, _, st1) => (none, st1)
    | (true, p, st1) =>
        inode_allocate_doubly_loop (fun k => if k = (j : Int) then p else tbl k) st1
          (j + 1) (count - numTo) rest

/-- `inode_allocate_doubly_indirect` from inode.c lines 145-165. -/
def inode_allocate_doubly_indirect (ptr : Nat) (count : Nat) (st : FreeMapDisk) :
    Bool × Nat × FreeMapDisk :=
  match inode_allocate_sector ptr st with
  | (false, v, st1) => (false, v, st1)
  | (true, p, st1) =>
    match inode_allocate_doubly_loop (st1.blocks p) st1 0 count
        ((count + (INDIRECT_BLOCK_COUNT - 1)) / INDIRECT_BLOCK_COUNT) with
    | (none, st2) => (false, p, st2)
    | (some tbl2, st2) => (true, p, writeWords st2 p tbl2)

/-- `DIV_ROUND_UP (size, BLOCK_SECTOR_SIZE)`, the number of sectors covering
`size` bytes (`bytes_to_sectors` in both inode.c copies). -/
def bytes_to_sectors (size : Int) : Nat :=
  (Int.tdiv (size + (512 - 1)) 512).toNat

/-- Direct-tier loop of `inode_allocate` (inode.c lines 181-185): on failure
the record keeps the direct pointers installed so far and the function
returns false without releasing anything.  The remaining iteration count
drives the recursion; the initial call uses `i = 0` and the number of
direct sectors to allocate as the count. -/
def inode_allocate_direct_loop (d : InodeDisk) (st : FreeMapDisk) (i : Nat) :
    Nat → Bool × InodeDisk × FreeMapDisk
  | 0 => (true, d, st)
  | k + 1 =>
    match inode_allocate_sector (d.direct_blocks (i : Int)) st with
    | (false, _, st1) => (false, d, st1)
    | (true, s, st1) =>
        inode_allocate_direct_loop
          { d with direct_blocks := fun j => if j = (i : Int) then s else d.direct_blocks j }
          st1 (i + 1) k

/-- `inode_allocate` from `src/pintos/src/filesys/inode.c` lines 168-210:
walk the direct, single-indirect and doubly-indirect tiers in order; report
failure as soon as any per-sector allocation fails.  Note that no failure
path releases the sectors already claimed from the free map. -/
def inode_allocate (d : InodeDisk) (length : Int) (st : FreeMapDisk) :
    Bool × InodeDisk × FreeMapDisk :=
  if length < 0 then (false, d, st)
  else
    let remaining := bytes_to_sectors length
    let num1 := if remaining < DIRECT_BLOCK_COUNT then remaining else DIRECT_BLOCK_COUNT
    match inode_allocate_direct_loop d st 0 num1 with
    | (false, d1, st1) => (false, d1, st1)
    | (true, d1, st1) =>
      let remaining1 := remaining - num1
      if remaining1 = 0 then (true, d1, st1)
      else
        let num2 := if remaining1 < INDIRECT_BLOCK_COUNT then remaining1 else INDIRECT_BLOCK_COUNT
        match inode_allocate_indirect d1.indirect_block num2 st1 with
        | (false, v, st2) => (false, { d1 with indirect_block := v }, st2)
        | (true, p, st2) =>
          let d2 := { d1 with indirect_block := p }
          let remaining2 := remaining1 - num2
          if remaining2 = 0 then (true, d2, st2)
          else
            let num3 := if remaining2 < INDIRECT_BLOCK_COUNT * INDIRECT_BLOCK_COUNT then
                remaining2 else INDIRECT_BLOCK_COUNT * INDIRECT_BLOCK_COUNT
            match inode_allocate_doubly_indirect d2.doubly_indirect_block num3 st2 with
            | (false, v, st3) => (false, { d2 with doubly_indirect_block := v }, st3)
            | (true, q, st3) => (true, { d2 with doubly_indirect_block := q }, st3)

/-- Freshly zeroed inode record, as `inode_create` builds it for a new file
before calling the allocator. -/
def c2_inode0 : InodeDisk :=
  { direct_blocks := fun _ => 0, indirect_block := 0, doubly_indirect_block := 0,
    isdir := 0, length := 0 }

/-- A free map that can grant exactly one more sector, number 10. -/
def c2_fm0 : FreeMapDisk :=
  { freeCnt := 1, nextSector := 10, claimed := [], blocks := fun _ _ => 0 }

/-- C2: evaluating `inode_allocate` on a zeroed record with requested length
1024 (two sectors) against a free map holding exactly one more sector shows
the bug: the second per-sector allocation fails, the call reports failure,
and yet sector 10 — claimed by the same call — is still held by the free
map, not released.  The claim requires `claimed = []` at failure. -/
theorem c2_inode_allocate_leaks_claimed_sector :
    (inode_allocate c2_inode0 1024 c2_fm0).1 = false
    ∧ ((inode_allocate c2_inode0 1024 c2_fm0).2.2).claimed = [10]
    ∧ ((inode_allocate c2_inode0 1024 c2_fm0).2.2).claimed ≠ [] := by
  refine ⟨by decide, ?_, by decide⟩
  decide


/-! ### `inode_write_at` (claim C8)

State threaded through a write: the cached on-disk record at the inode's
home sector, the free map with the indirect-table sector contents, and the
list of data-sector writes `(sector, sector_ofs, chunk)` issued through
`bufcache_write` by the copy loop. -/

structure FsSt where
  ondisk : InodeDisk
  fm : FreeMapDisk
  dataWrites : List (Nat × Int × Int)

/-- Copy loop of `inode_write_at` (inode.c lines 483-505): translate the
offset, bound the chunk by the bytes left in the inode and in the sector,
stop when the chunk is non-positive, otherwise issue the `bufcache_write`
and advance.  The C ternaries `a < b ? a : b` compute minima; `ondisk` and
`blocks` are the record and table contents read back through the cache on
every iteration (unchanged by data-sector writes). -/
def inode_write_loop (ondisk : InodeDisk) (blocks : Nat → Int → Nat) :
    Int → Int → Int → List (Nat × Int × Int) → Int × List (Nat × Int × Int) :=
  fun size offset bytes_written acc =>
  if 0 < size then
    let sector_idx := byte_to_sector blocks ondisk offset
    let sector_ofs := Int.tmod offset (BLOCK_SECTOR_SIZE : Int)
    let inode_left := ondisk.length - offset
    let sector_left := (BLOCK_SECTOR_SIZE : Int) - sector_ofs
    let min_left := min inode_left sector_left
    let chunk := min size min_left
    if chunk ≤ 0 then (bytes_written, acc)
    else
      inode_write_loop ondisk blocks (size - chunk) (offset + chunk) (bytes_written + chunk)
        (acc ++ [(sector_idx, sector_ofs, chunk)])
  else (bytes_written, acc)
termination_by size _ _ _ => size.toNat
decreasing_by
  rename_i hpos hch
  rw [not_le] at hch
  simp only [min_def] at hch ⊢
  split_ifs at hch ⊢ <;> omega

/-- `inode_write_at` from `src/pintos/src/filesys/inode.c` lines 458-508.
If the write-deny count is non-zero, return 0.  If the last byte to be
written has no backing sector, extend: read the record, run the allocator
for the new length, and on success update `length` and write the record
back (on failure the malloc'd copy is discarded, so the record keeps its
old contents, but free-map claims and zero-fills already made persist).
Then run the copy loop. -/
def inode_write_at (deny_write_cnt : Nat) (st : FsSt) (size offset : Int) :
    Int × FsSt :=
  if deny_write_cnt ≠ 0 then (0, st)
  else if byte_to_sector st.fm.blocks st.ondisk (offset + size - 1) = NOT_PRESENT then
    match inode_allocate st.ondisk (offset + size) st.fm with
    | (false, _, fm1) => (0, { st with fm := fm1 })
    | (true, d1, fm1) =>
      let d2 := { d1 with length := offset + size }
      let r := inode_write_loop d2 fm1.blocks size offset 0 []
      (r.1, { ondisk := d2, fm := fm1, dataWrites := st.dataWrites ++ r.2 })
  else
    let r := inode_write_loop st.ondisk st.fm.blocks size offset 0 []
    (r.1, { st with dataWrites := st.dataWrites ++ r.2 })

/-- Sector pointers that can actually be stored by a well-formed inode:
no direct slot and no indirect-table word holds the `(block_sector_t) -1`
sentinel that `byte_to_sector` uses for "not present". -/
def ValidPtrs (st : FsSt) : Prop :=
  (∀ i : Int, st.ondisk.direct_blocks i ≠ NOT_PRESENT)
  ∧ (∀ (s : Nat) (i : Int), st.fm.blocks s i ≠ NOT_PRESENT)

theorem byte_to_sector_ne_notPresent (rd : Nat → Int → Nat) (d : InodeDisk) (pos : Int)
    (hpos : pos < d.length)
    (hdir : ∀ i : Int, d.direct_blocks i ≠ NOT_PRESENT)
    (hrd : ∀ (s : Nat) (i : Int), rd s i ≠ NOT_PRESENT) :
    byte_to_sector rd d pos ≠ NOT_PRESENT := by
  unfold byte_to_sector
  rw [if_pos hpos]
  dsimp only
  split_ifs with h1 h2
  · exact hdir _
  · exact hrd _ _
  · exact hrd _ _

/-- C8: with the write-deny counter zero and an offset between 0 and the
current length of a well-formed inode, a write of size 0 returns 0 bytes
written and leaves the whole state — the on-disk record with its length
field, the free map, and the set of issued data writes — exactly unchanged. -/
theorem c8_inode_write_at_size_zero_frame (st : FsSt) (offset : Int)
    (hv : ValidPtrs st) (h0 : 0 ≤ offset) (hlen : offset ≤ st.ondisk.length) :
    inode_write_at 0 st 0 offset = (0, st) := by
  unfold inode_write_at
  rw [if_neg (by simp)]
  rw [if_neg (byte_to_sector_ne_notPresent _ _ _ (by omega) hv.1 hv.2)]
  unfold inode_write_loop
  simp

/-- Concrete well-formed state for the C8 witness: a 100-byte file whose
direct pointers are sector 5 and whose table words are all sector 8. -/
def c8_state : FsSt :=
  { ondisk := { direct_blocks := fun _ => 5, indirect_block := 6, doubly_indirect_block := 7,
                isdir := 0, length := 100 },
    fm := { freeCnt := 0, nextSector := 0, claimed := [], blocks := fun _ _ => 8 },
    dataWrites := [] }

theorem c8_inode_write_at_size_zero_frame_witness :
    inode_write_at 0 c8_state 0 0 = (0, c8_state) :=
  c8_inode_write_at_size_zero_frame c8_state 0
    ⟨fun i => (by decide : (5 : Nat) ≠ NOT_PRESENT), fun s i => (by decide : (8 : Nat) ≠ NOT_PRESENT)⟩
    (by decide) (by decide)

/-! ### Buffer cache (`src/unnamed/part_003` lines 7-209, and
`src/pintos/src/filesys/bufcache.c`)

The cache is an array of `NUM_ENTRIES` entries plus an LRU list of entry
indices (front = most recently used), the `num_ready` counter (`unsigned`
in part_003, so its decrement/increment pairs wrap modulo `2^32`), the two
statistics counters, and a lock-depth counter standing for
`cache_lock` (0 = not held by the caller).  `disk` is the backing block
device image; `block_read`/`block_write` also produce `IOEv` events so that
theorems can speak about the disk traffic of one call. -/

inductive IOEv where
  | read (sector : Nat)
  | write (sector : Nat)
deriving DecidableEq

structure BCEntry where
  sector : Nat
  ready : Bool
  dirty : Bool
  data : Nat → Nat

structure Bufcache where
  entries : Fin NUM_ENTRIES → BCEntry
  lru : List (Fin NUM_ENTRIES)
  num_ready : Nat
  num_hits : Nat
  num_accesses : Nat
  lockDepth : Nat
  disk : Nat → Nat → Nat

def lock_acquire (st : Bufcache) : Bufcache := { st with lockDepth := st.lockDepth + 1 }

def lock_release (st : Bufcache) : Bufcache := { st with lockDepth := st.lockDepth - 1 }

/-- Replace entry `i`. -/
def bc_upd (st : Bufcache) (i : Fin NUM_ENTRIES) (e : BCEntry) : Bufcache :=
  { st with entries := fun k => if k = i then e else st.entries k }

/-- Decrement of the `unsigned num_ready` field, wrapping modulo `2^32`. -/
def decWrap (n : Nat) : Nat := (n + (4294967296 - 1)) % 4294967296

/-- Increment of the `unsigned num_ready` field, wrapping modulo `2^32`. -/
def incWrap (n : Nat) : Nat := (n + 1) % 4294967296

/-- `find` from bufcache.c lines 74-82: scan the entry array in index order
for a matching sector. -/
def bc_find (st : Bufcache) (s : Nat) : Option (Fin NUM_ENTRIES) :=
  (List.finRange NUM_ENTRIES).find? (fun i => (st.entries i).sector == s)

/-- Backward walk of `get_eviction_candidate` (bufcache.c lines 65-69),
fed the LRU list rear first.  Running out of list elements corresponds to
the C walk stepping past the front of the list into the sentinel, which is
modelled as `none`. -/
def scanReadyFromBack (st : Bufcache) : List (Fin NUM_ENTRIES) → Option (Fin NUM_ENTRIES)
  | [] => none
  | i :: rest => if (st.entries i).ready then some i else scanReadyFromBack st rest

/-- `get_eviction_candidate` from bufcache.c lines 60-71. -/
def get_eviction_candidate (st : Bufcache) : Option (Fin NUM_ENTRIES) :=
  if st.num_ready = 0 then none
  else scanReadyFromBack st st.lru.reverse

/-- `clean` from bufcache.c lines 85-102: write the dirty entry back to the
device and mark it clean.  The not-ready window (ready := false, num_ready
decremented, lock released around `block_write`, then all restored) is
composed into its net effect; on the `unsigned` counter the net effect is a
wrapping decrement followed by a wrapping increment. -/
def bc_clean (st : Bufcache) (i : Fin NUM_ENTRIES) : Bufcache × List IOEv :=
  let e := st.entries i
  let st1 := bc_upd st i { e with dirty := false }
  ({ st1 with num_ready := incWrap (decWrap st1.num_ready),
              disk := fun t k => if t = e.sector then e.data k else st.disk t k },
   [IOEv.write e.sector])

/-- `replace` from bufcache.c lines 105-122: retarget the clean entry and
read the new sector from the device, with the same composed not-ready
window. -/
def bc_replace (st : Bufcache) (i : Fin NUM_ENTRIES) (s : Nat) : Bufcache × List IOEv :=
  let st1 := bc_upd st i { st.entries i with sector := s, data := fun k => st.disk s k }
  ({ st1 with num_ready := incWrap (decWrap st1.num_ready) }, [IOEv.read s])

/-- Blind install (bufcache.c lines 152-154): rename the clean victim to
the target sector in place; no device traffic. -/
def bc_rename (st : Bufcache) (i : Fin NUM_ENTRIES) (s : Nat) : Bufcache :=
  bc_upd st i { st.entries i with sector := s }

/-- The `while (true)` body of `bufcache_access` (part_003 lines 130-158;
the copy in `src/pintos/src/filesys/bufcache.c` lines 117-140 is identical
except that it keeps no statistics).  `fuel` bounds the number of loop
iterations; `is_hit` is the local hit latch, which the source clears after
counting a hit and on the miss path, but not when waiting on a non-ready
match.  Each `cond_wait` releases the cache lock, so the state other
threads may have produced by wake-up time is given by the environment step
`env`; the sequential external API uses the identity environment. -/
def bc_loop (env : Bufcache → Bufcache) (s : Nat) (blind : Bool) :
    Nat → Bufcache → Bool → Bufcache × Option (Fin NUM_ENTRIES) × List IOEv
  | 0, st, _ => (st, none, [])
  | fuel + 1, st, is_hit =>
    match bc_find st s with
    | some i =>
      if (st.entries i).ready = false then
        bc_loop env s blind fuel (env st) is_hit
      else
        let st1 := if is_hit then { st with num_hits := st.num_hits + 1 } else st
        let st2 := { st1 with lru := i :: st1.lru.erase i }
        (st2, some i, [])
    | none =>
      match get_eviction_candidate st with
      | none => bc_loop env s blind fuel (env st) false
      | some j =>
        if (st.entries j).dirty then
          let c := bc_clean st j
          let r := bc_loop env s blind fuel c.1 false
          (r.1, r.2.1, c.2 ++ r.2.2)
        else if blind then
          bc_loop env s blind fuel (bc_rename st j s) false
        else
          let c := bc_replace st j s
          let r := bc_loop env s blind fuel c.1 false
          (r.1, r.2.1, c.2 ++ r.2.2)

/-- Loop iterations that suffice for any access against a quiescent cache:
at worst miss, clean the victim, install, then hit. -/
def BC_FUEL : Nat := 4

/-- `bufcache_access` (part_003 lines 125-159): count the access once at
entry, then run the loop with the hit latch set. -/
def bc_access (env : Bufcache → Bufcache) (s : Nat) (blind : Bool) (fuel : Nat)
    (st : Bufcache) : Bufcache × Option (Fin NUM_ENTRIES) × List IOEv :=
  bc_loop env s blind fuel { st with num_accesses := st.num_accesses + 1 } true

/-- Result of one external cache operation: the new cache state, the entry
the access resolved to, and the device traffic of the call. -/
structure BCRes where
  st : Bufcache
  idx : Option (Fin NUM_ENTRIES)
  evs : List IOEv

/-- `bufcache_read` from part_003 lines 162-169 (pintos copy lines
145-152): acquire, access non-blind, copy out of the cached image (which
does not change the cache), release. -/
def bufcache_read (st : Bufcache) (s : Nat) (off len : Nat) : BCRes :=
  let st0 := lock_acquire st
  let r := bc_access (fun x => x) s false BC_FUEL st0
  { st := lock_release r.1, idx := r.2.1, evs := r.2.2 }

/-- `bufcache_write` from part_003 lines 171-179: acquire, access with
`blind = (length == BLOCK_SECTOR_SIZE)`, copy `len` bytes at `off` into the
cached image, set dirty, release. -/
def bufcache_write (st : Bufcache) (s : Nat) (buf : Nat → Nat) (off len : Nat) : BCRes :=
  let st0 := lock_acquire st
  let r := bc_access (fun x => x) s (len == BLOCK_SECTOR_SIZE) BC_FUEL st0
  match r.2.1 with
  | some i =>
    let e := r.1.entries i
    let e1 := { e with
      data := fun k => if off ≤ k ∧ k < off + len then buf (k - off) else e.data k,
      dirty := true }
    { st := lock_release (bc_upd r.1 i e1), idx := some i, evs := r.2.2 }
  | none => { st := lock_release r.1, idx := none, evs := r.2.2 }

/-- `bufcache_write` as written in `src/pintos/src/filesys/bufcache.c`
lines 154-162: the body is the same, but the function ends with
`lock_acquire(&bufcache.cache_lock);lock_acquire(&bufcache.cache_lock);`
where releases were intended, so the caller still holds the lock (twice
over) at return; in Pintos the first re-acquire asserts. -/
def bufcache_write_lockbug (st : Bufcache) (s : Nat) (buf : Nat → Nat) (off len : Nat) :
    BCRes :=
  let st0 := lock_acquire st
  let r := bc_access (fun x => x) s (len == BLOCK_SECTOR_SIZE) BC_FUEL st0
  match r.2.1 with
  | some i =>
    let e := r.1.entries i
    let e1 := { e with
      data := fun k => if off ≤ k ∧ k < off + len then buf (k - off) else e.data k,
      dirty := true }
    { st := lock_acquire (lock_acquire (bc_upd r.1 i e1)), idx := some i, evs := r.2.2 }
  | none => { st := lock_acquire (lock_acquire r.1), idx := none, evs := r.2.2 }

/-- Loop body of `bufcache_flush` (part_003 lines 184-188): walk the entry
array in index order and `clean` each dirty entry. -/
def bc_flush_fold : Bufcache → List (Fin NUM_ENTRIES) → Bufcache × List IOEv
  | st, [] => (st, [])
  | st, i :: rest =>
    if (st.entries i).dirty then
      let c := bc_clean st i
      let r := bc_flush_fold c.1 rest
      (r.1, c.2 ++ r.2)
    else bc_flush_fold st rest

/-- `bufcache_flush` from part_003 lines 181-190 (the copy in
`src/pintos/src/filesys/bufcache.c` lines 164-171 runs the same loop but
ends with the second `lock_acquire` typo instead of the release). -/
def bufcache_flush (st : Bufcache) : Bufcache × List IOEv :=
  let st0 := lock_acquire st
  let r := bc_flush_fold st0 (List.finRange NUM_ENTRIES)
  (lock_release r.1, r.2)

def bufcache_hit_count (st : Bufcache) : Nat := st.num_hits

def bufcache_access_count (st : Bufcache) : Nat := st.num_accesses

/-- `bufcache_reset` from part_003 lines 200-209: zero both statistics
counters and mark every entry clean, ready and holding `INVALID_SECTOR`.
The function does no device I/O (so the event list is empty and the device
image is untouched) and leaves the data buffers and the LRU list alone. -/
def bufcache_reset (st : Bufcache) : Bufcache × List IOEv :=
  ({ st with
      num_ready := NUM_ENTRIES, num_hits := 0, num_accesses := 0,
      entries := fun i =>
        { st.entries i with dirty := false, ready := true, sector := INVALID_SECTOR } },
   [])

/-- `bufcache_init` from part_003 lines 42-57: every slot ready, clean and
holding `INVALID_SECTOR`, `num_ready = NUM_ENTRIES`, counters zero, and the
LRU list built by pushing each entry at the front in index order (so it is
index order reversed).  The C leaves the data buffers uninitialised; zeroes
stand in for them, and the device image starts as all zeroes too. -/
def bufcache_init : Bufcache :=
  { entries := fun _ =>
      { sector := INVALID_SECTOR, ready := true, dirty := false, data := fun _ => 0 },
    lru := (List.finRange NUM_ENTRIES).reverse,
    num_ready := NUM_ENTRIES, num_hits := 0, num_accesses := 0, lockDepth := 0,
    disk := fun _ _ => 0 }

/-! ### Claim C9: `bufcache_reset` -/

/-- C9: after `bufcache_reset`, `hit_count()` and `access_count()` return 0,
every entry is clean, ready and holds the `INVALID_SECTOR` sentinel (its
data buffer is left in memory untouched), and the reset performs no
block-device write — the call's event list is empty and the device image is
unchanged — so unflushed dirty data is discarded rather than written back. -/
theorem c9_bufcache_reset_spec (st : Bufcache) :
    bufcache_hit_count (bufcache_reset st).1 = 0
    ∧ bufcache_access_count (bufcache_reset st).1 = 0
    ∧ (∀ i : Fin NUM_ENTRIES,
        ((bufcache_reset st).1.entries i).dirty = false
        ∧ ((bufcache_reset st).1.entries i).ready = true
        ∧ ((bufcache_reset st).1.entries i).sector = INVALID_SECTOR
        ∧ ((bufcache_reset st).1.entries i).data = (st.entries i).data)
    ∧ (bufcache_reset st).2 = []
    ∧ (bufcache_reset st).1.disk = st.disk :=
  ⟨rfl, rfl, fun _ => ⟨rfl, rfl, rfl, rfl⟩, rfl, rfl⟩

/-! ### Claim C10: `get_eviction_candidate` -/

/-- Number of entries whose ready flag is set. -/
def countReady (st : Bufcache) : Nat :=
  ((List.finRange NUM_ENTRIES).filter (fun i => (st.entries i).ready)).length

theorem scanReadyFromBack_finds (st : Bufcache) :
    ∀ l : List (Fin NUM_ENTRIES), (∃ i ∈ l, (st.entries i).ready = true) →
      ∃ j, scanReadyFromBack st l = some j ∧ (st.entries j).ready = true := by
  intro l
  induction l with
  | nil => rintro ⟨i, hi, _⟩; cases hi
  | cons a t ih =>
    rintro ⟨i, hi, hr⟩
    by_cases ha : (st.entries a).ready = true
    · exact ⟨a, by simp [scanReadyFromBack, ha], ha⟩
    · have hit : i ∈ t := by
        rcases List.mem_cons.mp hi with h | h
        · exact absurd (h ▸ hr) ha
        · exact h
      obtain ⟨j, hj, hjr⟩ := ih ⟨i, hit, hr⟩
      exact ⟨j, by simp [scanReadyFromBack, ha, hj], hjr⟩

/-- C10: whenever `num_ready` agrees with the number of ready entries and
all entries are threaded on the LRU list, `get_eviction_candidate` returns
NULL exactly when `num_ready` is zero, and otherwise its backward scan from
the rear of the LRU list stops at a ready entry — it never walks past the
front (which the model expresses as returning `none` from the scan). -/
theorem c10_get_eviction_candidate_safe (st : Bufcache)
    (hcnt : st.num_ready = countReady st)
    (hall : ∀ i : Fin NUM_ENTRIES, i ∈ st.lru) :
    (st.num_ready = 0 → get_eviction_candidate st = none)
    ∧ (st.num_ready ≠ 0 →
        ∃ j, get_eviction_candidate st = some j ∧ (st.entries j).ready = true) := by
  constructor
  · intro h0
    unfold get_eviction_candidate
    rw [if_pos h0]
  · intro hne
    have hready : ∃ i ∈ st.lru.reverse, (st.entries i).ready = true := by
      have hlen : countReady st ≠ 0 := fun h => hne (hcnt.trans h)
      have hfil : (List.finRange NUM_ENTRIES).filter (fun i => (st.entries i).ready) ≠ [] := by
        intro h
        exact hlen (by simp [countReady, h])
      obtain ⟨i, hi⟩ := List.exists_mem_of_ne_nil _ hfil
      refine ⟨i, List.mem_reverse.mpr (hall i), ?_⟩
      simpa using (List.mem_filter.mp hi).2
    obtain ⟨j, hj, hjr⟩ := scanReadyFromBack_finds st st.lru.reverse hready
    refine ⟨j, ?_, hjr⟩
    unfold get_eviction_candidate
    rw [if_neg hne]
    exact hj

theorem c10_get_eviction_candidate_safe_witness :
    bufcache_init.num_ready ≠ 0
    ∧ ∃ j, get_eviction_candidate bufcache_init = some j
        ∧ (bufcache_init.entries j).ready = true :=
  ⟨by decide,
   (c10_get_eviction_candidate_safe bufcache_init (by decide) (by decide)).2 (by decide)⟩

/-! ### Claim C5: `bufcache_write` and the cache lock -/

def c5_buf : Nat → Nat := fun k => 100 + k

/-- C5: evaluating the two `bufcache_write` copies on the freshly
initialised cache (sector 5, offset 0, length 1).  Both copy the byte into
the cached image and set the entry dirty, but the copy in
`src/pintos/src/filesys/bufcache.c` ends with two further `lock_acquire`
calls where releases were intended, so its caller still holds the global
cache lock (depth 3) at return — contradicting the claim — while the
`src/unnamed/part_003` copy releases it (depth 0). -/
theorem c5_bufcache_write_lock_typo :
    (bufcache_write_lockbug bufcache_init 5 c5_buf 0 1).st.lockDepth = 3
    ∧ (bufcache_write bufcache_init 5 c5_buf 0 1).st.lockDepth = 0
    ∧ (∃ i, (bufcache_write_lockbug bufcache_init 5 c5_buf 0 1).idx = some i
        ∧ ((bufcache_write_lockbug bufcache_init 5 c5_buf 0 1).st.entries i).dirty = true
        ∧ ((bufcache_write_lockbug bufcache_init 5 c5_buf 0 1).st.entries i).data 0
            = c5_buf 0) := by
  refine ⟨by decide, by decide, ⟨0, by decide, by decide, by decide⟩⟩

/-! ### Claim C7: hit and access counters -/

theorem bc_find_congr (st' st : Bufcache) (h : st'.entries = st.entries) (s : Nat) :
    bc_find st' s = bc_find st s := by
  unfold bc_find
  rw [h]

theorem bc_loop_id_num_accesses (s : Nat) (blind : Bool) :
    ∀ (fuel : Nat) (st : Bufcache) (ih : Bool),
      (bc_loop (fun x => x) s blind fuel st ih).1.num_accesses = st.num_accesses := by
  intro fuel
  induction fuel with
  | zero => intro st ih; rfl
  | succ n IH =>
    intro st ih
    simp only [bc_loop]
    cases hf : bc_find st s with
    | some i =>
      simp only
      by_cases hr : (st.entries i).ready = false
      · rw [if_pos hr]
        exact IH st ih
      · rw [if_neg hr]
        cases ih <;> simp
    | none =>
      simp only
      cases hc : get_eviction_candidate st with
      | none => exact IH st false
      | some j =>
        simp only
        by_cases hd : (st.entries j).dirty
        · rw [if_pos hd]
          exact IH (bc_clean st j).1 false
        · rw [if_neg hd]
          by_cases hb : blind
          · rw [if_pos hb]
            exact IH (bc_rename st j s) false
          · rw [if_neg hb]
            exact IH (bc_replace st j s).1 false

theorem bc_loop_id_hits_of_latch_false (s : Nat) (blind : Bool) :
    ∀ (fuel : Nat) (st : Bufcache),
      (bc_loop (fun x => x) s blind fuel st false).1.num_hits = st.num_hits := by
  intro fuel
  induction fuel with
  | zero => intro st; rfl
  | succ n IH =>
    intro st
    simp only [bc_loop]
    cases hf : bc_find st s with
    | some i =>
      simp only
      by_cases hr : (st.entries i).ready = false
      · rw [if_pos hr]
        exact IH st
      · rw [if_neg hr]
        simp
    | none =>
      simp only
      cases hc : get_eviction_candidate st with
      | none => exact IH st
      | some j =>
        simp only
        by_cases hd : (st.entries j).dirty
        · rw [if_pos hd]
          exact IH (bc_clean st j).1
        · rw [if_neg hd]
          by_cases hb : blind
          · rw [if_pos hb]
            exact IH (bc_rename st j s)
          · rw [if_neg hb]
            exact IH (bc_replace st j s).1

theorem bc_loop_id_hits_le (s : Nat) (blind : Bool) :
    ∀ (fuel : Nat) (st : Bufcache) (ih : Bool),
      (bc_loop (fun x => x) s blind fuel st ih).1.num_hits
        ≤ st.num_hits + (if ih then 1 else 0) := by
  intro fuel
  induction fuel with
  | zero => intro st ih; exact Nat.le_add_right _ _
  | succ n IH =>
    intro st ih
    simp only [bc_loop]
    cases hf : bc_find st s with
    | some i =>
      simp only
      by_cases hr : (st.entries i).ready = false
      · rw [if_pos hr]
        exact IH st ih
      · rw [if_neg hr]
        cases ih <;> simp
    | none =>
      simp only
      have hle : st.num_hits ≤ st.num_hits + (if ih then 1 else 0) := Nat.le_add_right _ _
      cases hc : get_eviction_candidate st with
      | none => exact le_trans (le_of_eq (bc_loop_id_hits_of_latch_false s blind n st)) hle
      | some j =>
        simp only
        by_cases hd : (st.entries j).dirty
        · rw [if_pos hd]
          exact le_trans (le_of_eq (bc_loop_id_hits_of_latch_false s blind n (bc_clean st j).1)) hle
        · rw [if_neg hd]
          by_cases hb : blind
          · rw [if_pos hb]
            exact le_trans
              (le_of_eq (bc_loop_id_hits_of_latch_false s blind n (bc_rename st j s))) hle
          · rw [if_neg hb]
            exact le_trans
              (le_of_eq (bc_loop_id_hits_of_latch_false s blind n (bc_replace st j s).1)) hle

theorem bufcache_read_access_count (st : Bufcache) (s off len : Nat) :
    (bufcache_read st s off len).st.num_accesses = st.num_accesses + 1 :=
  bc_loop_id_num_accesses s false BC_FUEL _ true

theorem bufcache_read_hits_le (st : Bufcache) (s off len : Nat) :
    (bufcache_read st s off len).st.num_hits ≤ st.num_hits + 1 :=
  bc_loop_id_hits_le s false BC_FUEL _ true

theorem bufcache_write_access_count (st : Bufcache) (s : Nat) (buf : Nat → Nat)
    (off len : Nat) :
    (bufcache_write st s buf off len).st.num_accesses = st.num_accesses + 1 := by
  unfold bufcache_write
  cases h : (bc_access (fun x => x) s (len == BLOCK_SECTOR_SIZE) BC_FUEL
      (lock_acquire st)).2.1 with
  | some i =>
    simp only [h]
    exact bc_loop_id_num_accesses s (len == BLOCK_SECTOR_SIZE) BC_FUEL _ true
  | none =>
    simp only [h]
    exact bc_loop_id_num_accesses s (len == BLOCK_SECTOR_SIZE) BC_FUEL _ true

theorem bufcache_write_hits_le (st : Bufcache) (s : Nat) (buf : Nat → Nat)
    (off len : Nat) :
    (bufcache_write st s buf off len).st.num_hits ≤ st.num_hits + 1 := by
  unfold bufcache_write
  cases h : (bc_access (fun x => x) s (len == BLOCK_SECTOR_SIZE) BC_FUEL
      (lock_acquire st)).2.1 with
  | some i =>
    simp only [h]
    exact bc_loop_id_hits_le s (len == BLOCK_SECTOR_SIZE) BC_FUEL _ true
  | none =>
    simp only [h]
    exact bc_loop_id_hits_le s (len == BLOCK_SECTOR_SIZE) BC_FUEL _ true

theorem bc_flush_fold_counters :
    ∀ (l : List (Fin NUM_ENTRIES)) (st : Bufcache),
      (bc_flush_fold st l).1.num_hits = st.num_hits
      ∧ (bc_flush_fold st l).1.num_accesses = st.num_accesses := by
  intro l
  induction l with
  | nil => intro st; exact ⟨rfl, rfl⟩
  | cons i rest IH =>
    intro st
    simp only [bc_flush_fold]
    by_cases hd : (st.entries i).dirty
    · rw [if_pos hd]
      exact IH (bc_clean st i).1
    · rw [if_neg hd]
      exact IH st

/-- External buffer-cache operations (the API of part_003). -/
inductive BCOp where
  | rd (s off len : Nat)
  | wr (s : Nat) (buf : Nat → Nat) (off len : Nat)
  | flush
  | reset

def bc_step (st : Bufcache) : BCOp → Bufcache
  | BCOp.rd s off len => (bufcache_read st s off len).st
  | BCOp.wr s buf off len => (bufcache_write st s buf off len).st
  | BCOp.flush => (bufcache_flush st).1
  | BCOp.reset => (bufcache_reset st).1

def bc_run : Bufcache → List BCOp → Bufcache
  | st, [] => st
  | st, op :: ops => bc_run (bc_step st op) ops

theorem bc_step_hits_le_accesses (st : Bufcache) (h : st.num_hits ≤ st.num_accesses)
    (op : BCOp) : (bc_step st op).num_hits ≤ (bc_step st op).num_accesses := by
  cases op with
  | rd s off len =>
    have h1 := bufcache_read_access_count st s off len
    have h2 := bufcache_read_hits_le st s off len
    simp only [bc_step]
    omega
  | wr s buf off len =>
    have h1 := bufcache_write_access_count st s buf off len
    have h2 := bufcache_write_hits_le st s buf off len
    simp only [bc_step]
    omega
  | flush =>
    have e1 : (bc_step st BCOp.flush).num_hits = st.num_hits :=
      (bc_flush_fold_counters (List.finRange NUM_ENTRIES) (lock_acquire st)).1
    have e2 : (bc_step st BCOp.flush).num_accesses = st.num_accesses :=
      (bc_flush_fold_counters (List.finRange NUM_ENTRIES) (lock_acquire st)).2
    rw [e1, e2]
    exact h
  | reset => exact Nat.le_refl 0

theorem bc_run_hits_le_accesses (ops : List BCOp) :
    ∀ st : Bufcache, st.num_hits ≤ st.num_accesses →
      (bc_run st ops).num_hits ≤ (bc_run st ops).num_accesses := by
  induction ops with
  | nil => intro st h; exact h
  | cons op rest IH => intro st h; exact IH _ (bc_step_hits_le_accesses st h op)

/-- One loop iteration after a first-look-up miss clears the latch, so the
hit counter never moves. -/
theorem bc_loop_id_miss_no_hit (s : Nat) (blind : Bool) (fuel : Nat) (st : Bufcache)
    (ih : Bool) (hf : bc_find st s = none) :
    (bc_loop (fun x => x) s blind (fuel + 1) st ih).1.num_hits = st.num_hits := by
  simp only [bc_loop]
  rw [hf]
  simp only
  cases hc : get_eviction_candidate st with
  | none => exact bc_loop_id_hits_of_latch_false s blind fuel _
  | some j =>
    simp only
    by_cases hd : (st.entries j).dirty
    · rw [if_pos hd]
      exact bc_loop_id_hits_of_latch_false s blind fuel _
    · rw [if_neg hd]
      by_cases hb : blind
      · rw [if_pos hb]
        exact bc_loop_id_hits_of_latch_false s blind fuel _
      · rw [if_neg hb]
        exact bc_loop_id_hits_of_latch_false s blind fuel _

/-- A read whose first look-up misses never counts a hit: the latch is
cleared on the miss path before any eviction work. -/
theorem bufcache_read_miss_no_hit (st : Bufcache) (s off len : Nat)
    (hf : bc_find st s = none) :
    (bufcache_read st s off len).st.num_hits = st.num_hits := by
  unfold bufcache_read bc_access
  exact bc_loop_id_miss_no_hit s false 3
    { lock_acquire st with num_accesses := (lock_acquire st).num_accesses + 1 } true
    ((bc_find_congr _ st rfl s).trans hf)

/-- State for the C7 counterexample: a fresh cache except that entry 0
already targets sector 7 but is not ready (another thread is mid-I/O on
it). -/
def c7_cx_state : Bufcache :=
  { bufcache_init with
      entries := fun i =>
        if i = (0 : Fin NUM_ENTRIES) then
          { sector := 7, ready := false, dirty := false, data := fun _ => 0 }
        else bufcache_init.entries i,
      num_ready := 63 }

/-- Environment step for the C7 counterexample: while the caller waits on
`until_ready`, the other thread finishes its I/O and marks entry 0 ready. -/
def c7_cx_env : Bufcache → Bufcache := fun st =>
  { st with entries := fun i =>
      if i = (0 : Fin NUM_ENTRIES) then { st.entries i with ready := true }
      else st.entries i }

set_option maxRecDepth 10000 in
/-- C7 counterexample: the first inner-loop iteration finds a present but
NOT ready match, the call waits (during which the entry becomes ready), and
the second iteration still counts a hit — the `is_hit` latch is not cleared
on the wait path, contradicting the claim that a hit is counted only when
the first iteration found a present, ready match. -/
theorem c7_hit_latch_survives_wait :
    bc_find c7_cx_state 7 = some (0 : Fin NUM_ENTRIES)
    ∧ (c7_cx_state.entries (0 : Fin NUM_ENTRIES)).ready = false
    ∧ c7_cx_state.num_hits = 0
    ∧ (bc_access c7_cx_env 7 false 2 c7_cx_state).1.num_hits = 1 := by
  refine ⟨by decide, by decide, by decide, by decide⟩

/-- C7 (amended): starting from initialisation or from a statistics reset,
`hit_count ≤ access_count` holds after any sequence of cache operations;
each external access increments the access counter exactly once and the hit
counter at most once, and a call whose first look-up misses never counts a
hit.  (As `c7_hit_latch_survives_wait` shows, the hit need not come from
the *first* iteration having found a ready match: the latch survives
waiting on a present but non-ready match.) -/
theorem c7_hit_le_access_amended :
    (∀ ops : List BCOp,
      bufcache_hit_count (bc_run bufcache_init ops)
        ≤ bufcache_access_count (bc_run bufcache_init ops))
    ∧ (∀ (st : Bufcache) (ops : List BCOp),
      bufcache_hit_count (bc_run (bufcache_reset st).1 ops)
        ≤ bufcache_access_count (bc_run (bufcache_reset st).1 ops))
    ∧ (∀ (st : Bufcache) (s off len : Nat),
      (bufcache_read st s off len).st.num_accesses = st.num_accesses + 1
      ∧ (bufcache_read st s off len).st.num_hits ≤ st.num_hits + 1)
    ∧ (∀ (st : Bufcache) (s : Nat) (buf : Nat → Nat) (off len : Nat),
      (bufcache_write st s buf off len).st.num_accesses = st.num_accesses + 1
      ∧ (bufcache_write st s buf off len).st.num_hits ≤ st.num_hits + 1)
    ∧ (∀ (st : Bufcache) (s off len : Nat), bc_find st s = none →
      (bufcache_read st s off len).st.num_hits = st.num_hits) := by
  refine ⟨?_, ?_, ?_, ?_, ?_⟩
  · intro ops
    exact bc_run_hits_le_accesses ops bufcache_init (Nat.le_refl 0)
  · intro st ops
    exact bc_run_hits_le_accesses ops (bufcache_reset st).1 (Nat.le_refl 0)
  · intro st s off len
    exact ⟨bufcache_read_access_count st s off len, bufcache_read_hits_le st s off len⟩
  · intro st s buf off len
    exact ⟨bufcache_write_access_count st s buf off len, bufcache_write_hits_le st s buf off len⟩
  · intro st s off len hf
    exact bufcache_read_miss_no_hit st s off len hf

/-- Witness for C7 (amended): on the fresh cache, sector 7 misses, and a
read of it bumps the access counter to 1 while leaving the hit counter at
0. -/
theorem c7_hit_le_access_amended_witness :
    bc_find bufcache_init 7 = none
    ∧ (bufcache_read bufcache_init 7 0 1).st.num_hits = bufcache_init.num_hits
    ∧ (bufcache_read bufcache_init 7 0 1).st.num_accesses = 1 :=
  ⟨by decide,
   c7_hit_le_access_amended.2.2.2.2 bufcache_init 7 0 1 (by decide),
   (c7_hit_le_access_amended.2.2.1 bufcache_init 7 0 1).1⟩

/-! ### Claim C4: `bufcache_flush` -/

theorem bc_clean_entries (st : Bufcache) (j i : Fin NUM_ENTRIES) :
    ((bc_clean st j).1.entries i)
      = if i = j then { st.entries j with dirty := false } else st.entries i := by
  by_cases h : i = j <;> simp [bc_clean, bc_upd, h]

theorem bc_flush_fold_dirty_mono :
    ∀ (l : List (Fin NUM_ENTRIES)) (st : Bufcache) (i : Fin NUM_ENTRIES),
      (st.entries i).dirty = false → ((bc_flush_fold st l).1.entries i).dirty = false := by
  intro l
  induction l with
  | nil => intro st i h; exact h
  | cons j rest IH =>
    intro st i h
    simp only [bc_flush_fold]
    by_cases hd : (st.entries j).dirty
    · rw [if_pos hd]
      refine IH _ i ?_
      rw [bc_clean_entries]
      by_cases hij : i = j <;> simp [hij, h]
    · rw [if_neg hd]
      exact IH st i h

theorem bc_flush_fold_clears :
    ∀ (l : List (Fin NUM_ENTRIES)) (st : Bufcache) (i : Fin NUM_ENTRIES),
      i ∈ l → ((bc_flush_fold st l).1.entries i).dirty = false := by
  intro l
  induction l with
  | nil => intro st i hi; cases hi
  | cons j rest IH =>
    intro st i hi
    simp only [bc_flush_fold]
    by_cases hd : (st.entries j).dirty
    · rw [if_pos hd]
      rcases List.mem_cons.mp hi with h | h
      · subst h
        refine bc_flush_fold_dirty_mono rest _ i ?_
        rw [bc_clean_entries]
        simp
      · exact IH _ i h
    · rw [if_neg hd]
      rcases List.mem_cons.mp hi with h | h
      · subst h
        exact bc_flush_fold_dirty_mono rest st i (Bool.not_eq_true _ ▸ hd)
      · exact IH st i h

theorem bc_flush_fold_writes :
    ∀ (l : List (Fin NUM_ENTRIES)) (st : Bufcache) (i : Fin NUM_ENTRIES),
      i ∈ l → (st.entries i).dirty = true →
      IOEv.write (st.entries i).sector ∈ (bc_flush_fold st l).2 := by
  intro l
  induction l with
  | nil => intro st i hi; cases hi
  | cons j rest IH =>
    intro st i hi hdi
    simp only [bc_flush_fold]
    by_cases hij : i = j
    · subst hij
      rw [if_pos hdi]
      simp [bc_clean]
    · rcases List.mem_cons.mp hi with h | h
      · exact absurd h hij
      · by_cases hd : (st.entries j).dirty
        · rw [if_pos hd]
          have hkeep : ((bc_clean st j).1.entries i) = st.entries i := by
            rw [bc_clean_entries, if_neg hij]
          have := IH (bc_clean st j).1 i h (by rw [hkeep]; exact hdi)
          rw [hkeep] at this
          simp only [List.mem_append]
          right
          simpa using this
        · rw [if_neg hd]
          exact IH st i h hdi

/-- C4: every call to `bufcache_flush` writes back to the block device every
entry that was dirty at the call (an `IOEv.write` of its sector is in the
call's device traffic), and when it returns no entry of the cache is dirty. -/
theorem c4_bufcache_flush_writes_back (st : Bufcache) :
    (∀ i : Fin NUM_ENTRIES, ((bufcache_flush st).1.entries i).dirty = false)
    ∧ (∀ i : Fin NUM_ENTRIES, (st.entries i).dirty = true →
        IOEv.write (st.entries i).sector ∈ (bufcache_flush st).2) := by
  constructor
  · intro i
    exact bc_flush_fold_clears (List.finRange NUM_ENTRIES) (lock_acquire st) i
      (List.mem_finRange i)
  · intro i hd
    exact bc_flush_fold_writes (List.finRange NUM_ENTRIES) (lock_acquire st) i
      (List.mem_finRange i) hd

/-- Concrete state for the C4 witness: a fresh cache whose entry 3 holds
sector 42 with unflushed data. -/
def c4_state : Bufcache :=
  { bufcache_init with
      entries := fun i =>
        if i = (3 : Fin NUM_ENTRIES) then
          { sector := 42, ready := true, dirty := true, data := fun _ => 9 }
        else bufcache_init.entries i }

theorem c4_bufcache_flush_writes_back_witness :
    (c4_state.entries (3 : Fin NUM_ENTRIES)).dirty = true
    ∧ IOEv.write 42 ∈ (bufcache_flush c4_state).2
    ∧ ((bufcache_flush c4_state).1.entries (3 : Fin NUM_ENTRIES)).dirty = false :=
  ⟨by decide,
   (c4_bufcache_flush_writes_back c4_state).2 (3 : Fin NUM_ENTRIES) (by decide),
   (c4_bufcache_flush_writes_back c4_state).1 (3 : Fin NUM_ENTRIES)⟩

/-! ### Claim C3: blind full-sector writes -/

/-- Unfolding of one `bufcache_access` loop iteration. -/
theorem bc_loop_step (env : Bufcache → Bufcache) (s : Nat) (blind : Bool) (fuel : Nat)
    (st : Bufcache) (is_hit : Bool) :
    bc_loop env s blind (fuel + 1) st is_hit =
      match bc_find st s with
      | some i =>
        if (st.entries i).ready = false then
          bc_loop env s blind fuel (env st) is_hit
        else
          let st1 := if is_hit then { st with num_hits := st.num_hits + 1 } else st
          let st2 := { st1 with lru := i :: st1.lru.erase i }
          (st2, some i, [])
      | none =>
        match get_eviction_candidate st with
        | none => bc_loop env s blind fuel (env st) false
        | some j =>
          if (st.entries j).dirty then
            let c := bc_clean st j
            let r := bc_loop env s blind fuel c.1 false
            (r.1, r.2.1, c.2 ++ r.2.2)
          else if blind then
            bc_loop env s blind fuel (bc_rename st j s) false
          else
            let c := bc_replace st j s
            let r := bc_loop env s blind fuel c.1 false
            (r.1, r.2.1, c.2 ++ r.2.2) := rfl

theorem find?_eq_some_of_unique {α : Type} (p : α → Bool) :
    ∀ (l : List α) (j : α), j ∈ l → p j = true → (∀ i ∈ l, p i = true → i = j) →
      l.find? p = some j := by
  intro l
  induction l with
  | nil => intro j hj _ _; cases hj
  | cons a t IH =>
    intro j hj hpj huniq
    cases hpa : p a with
    | true =>
      have ha : a = j := huniq a (List.mem_cons_self a t) hpa
      subst ha
      simp [List.find?, hpa]
    | false =>
      have hjt : j ∈ t := by
        rcases List.mem_cons.mp hj with h | h
        · subst h; rw [hpj] at hpa; cases hpa
        · exact h
      have ht : t.find? p = some j :=
        IH j hjt hpj (fun i hi hp => huniq i (List.mem_cons_of_mem a hi) hp)
      simp [List.find?, hpa, ht]

theorem bc_find_some_sector {st : Bufcache} {s : Nat} {i : Fin NUM_ENTRIES}
    (h : bc_find st s = some i) : (st.entries i).sector = s := by
  unfold bc_find at h
  simpa using List.find?_some h

theorem bc_find_none_sector {st : Bufcache} {s : Nat} (h : bc_find st s = none) :
    ∀ i, (st.entries i).sector ≠ s := by
  intro i hi
  unfold bc_find at h
  have := List.find?_eq_none.mp h i (List.mem_finRange i)
  simp [hi] at this

theorem bc_find_target (st' : Bufcache) (s : Nat) (j : Fin NUM_ENTRIES)
    (hj : (st'.entries j).sector = s) (ho : ∀ i, i ≠ j → (st'.entries i).sector ≠ s) :
    bc_find st' s = some j := by
  unfold bc_find
  refine find?_eq_some_of_unique _ _ j (List.mem_finRange j) (by simp [hj]) ?_
  intro i _ hp
  by_contra hne
  exact ho i hne (by simpa using hp)

/-- With every entry ready and a non-empty LRU list, the eviction candidate
is the rearmost LRU entry. -/
theorem quiescent_candidate (st : Bufcache)
    (hr : ∀ i, (st.entries i).ready = true) (hnr : st.num_ready = NUM_ENTRIES)
    (j : Fin NUM_ENTRIES) (rest : List (Fin NUM_ENTRIES))
    (hrev : st.lru.reverse = j :: rest) :
    get_eviction_candidate st = some j := by
  unfold get_eviction_candidate
  rw [if_neg (by rw [hnr]; decide), hrev]
  simp [scanReadyFromBack, hr j]

theorem bc_rename_entries (st : Bufcache) (j i : Fin NUM_ENTRIES) (s : Nat) :
    ((bc_rename st j s).entries i)
      = if i = j then { st.entries j with sector := s } else st.entries i := by
  by_cases h : i = j <;> simp [bc_rename, bc_upd, h]

theorem incWrap_decWrap_num_entries : incWrap (decWrap NUM_ENTRIES) = NUM_ENTRIES := by
  decide

/-- A blind access never issues a device read, whatever the cache state:
the only loop branch that reads the device is the `replace` branch, which is
unreachable when `blind` holds. -/
theorem bc_loop_blind_no_read (env : Bufcache → Bufcache) (s : Nat) :
    ∀ (fuel : Nat) (st : Bufcache) (ih : Bool) (t : Nat),
      IOEv.read t ∉ (bc_loop env s true fuel st ih).2.2 := by
  intro fuel
  induction fuel with
  | zero => intro st ih t h; cases h
  | succ n IH =>
    intro st ih t
    simp only [bc_loop]
    cases hf : bc_find st s with
    | some i =>
      simp only
      by_cases hr : (st.entries i).ready = false
      · rw [if_pos hr]
        exact IH (env st) ih t
      · rw [if_neg hr]
        simp
    | none =>
      simp only
      cases hc : get_eviction_candidate st with
      | none => exact IH (env st) false t
      | some j =>
        simp only
        by_cases hd : (st.entries j).dirty
        · rw [if_pos hd]
          intro hmem
          rcases List.mem_append.mp hmem with h | h
          · simp [bc_clean] at h
          · exact IH (bc_clean st j).1 false t h
        · rw [if_neg hd]
          rw [if_pos trivial]
          exact IH (bc_rename st j s) false t

/-- Whenever the access loop returns an entry, that entry holds the
requested sector. -/
theorem bc_loop_returns_match (env : Bufcache → Bufcache) (s : Nat) (blind : Bool) :
    ∀ (fuel : Nat) (st : Bufcache) (ih : Bool) (i : Fin NUM_ENTRIES),
      (bc_loop env s blind fuel st ih).2.1 = some i →
      ((bc_loop env s blind fuel st ih).1.entries i).sector = s := by
  intro fuel
  induction fuel with
  | zero => intro st ih i h; cases h
  | succ n IH =>
    intro st ih i
    simp only [bc_loop]
    cases hf : bc_find st s with
    | some k =>
      simp only
      by_cases hr : (st.entries k).ready = false
      · rw [if_pos hr]
        exact IH (env st) ih i
      · rw [if_neg hr]
        intro h
        have hk : k = i := by simpa using h
        subst hk
        have hsec := bc_find_some_sector hf
        cases ih <;> simpa using hsec
    | none =>
      simp only
      cases hc : get_eviction_candidate st with
      | none => exact IH (env st) false i
      | some j =>
        simp only
        by_cases hd : (st.entries j).dirty
        · rw [if_pos hd]
          exact IH (bc_clean st j).1 false i
        · rw [if_neg hd]
          by_cases hb : blind
          · rw [if_pos hb]
            exact IH (bc_rename st j s) false i
          · rw [if_neg hb]
            exact IH (bc_replace st j s).1 false i

/-- A blind miss whose victim is clean: the loop renames the victim in
place — no device traffic at all — and the next iteration returns that very
entry, now holding the target sector. -/
theorem bc_loop_blind_rename_trace (s : Nat) (fuel : Nat) (st : Bufcache) (ih : Bool)
    (hr : ∀ i, (st.entries i).ready = true)
    (hfind : bc_find st s = none) (j : Fin NUM_ENTRIES)
    (hcand : get_eviction_candidate st = some j)
    (hd : (st.entries j).dirty = false) :
    (bc_loop (fun x => x) s true (fuel + 2) st ih).2.2 = []
    ∧ (bc_loop (fun x => x) s true (fuel + 2) st ih).2.1 = some j
    ∧ ((bc_loop (fun x => x) s true (fuel + 2) st ih).1.entries j).sector = s := by
  have hfr : bc_find (bc_rename st j s) s = some j := by
    refine bc_find_target _ s j (by rw [bc_rename_entries]; simp) ?_
    intro i hne
    rw [bc_rename_entries, if_neg hne]
    exact bc_find_none_sector hfind i
  have hrr : ((bc_rename st j s).entries j).ready = true := by
    rw [bc_rename_entries]
    simpa using hr j
  rw [show fuel + 2 = (fuel + 1) + 1 from rfl, bc_loop_step, hfind]
  simp only
  rw [hcand]
  simp only
  rw [if_neg (by simp [hd]), if_pos trivial, bc_loop_step, hfr]
  simp only
  rw [if_neg (by simp [hrr])]
  refine ⟨rfl, rfl, ?_⟩
  simp [bc_rename_entries]

/-- Against a quiescent cache, a blind access with enough fuel always
resolves to some entry. -/
theorem bc_loop_blind_total (s : Nat) (st : Bufcache)
    (hr : ∀ i, (st.entries i).ready = true) (hnr : st.num_ready = NUM_ENTRIES)
    (j : Fin NUM_ENTRIES) (rest : List (Fin NUM_ENTRIES))
    (hrev : st.lru.reverse = j :: rest) (ih : Bool) :
    ∃ i, (bc_loop (fun x => x) s true (3 + 1) st ih).2.1 = some i := by
  have hcand : get_eviction_candidate st = some j := quiescent_candidate st hr hnr j rest hrev
  cases hfind : bc_find st s with
  | some i =>
    refine ⟨i, ?_⟩
    rw [bc_loop_step, hfind]
    simp only
    rw [if_neg (by simp [hr i])]
  | none =>
    by_cases hd : (st.entries j).dirty
    · -- the victim is dirty: clean it first, then rename it in place
      have hclean_r : ∀ i, ((bc_clean st j).1.entries i).ready = true := by
        intro i
        rw [bc_clean_entries]
        by_cases h : i = j <;> simp [h, hr i, hr j]
      have hclean_f : bc_find (bc_clean st j).1 s = none := by
        have hsec : ∀ i, (((bc_clean st j).1.entries i).sector) = (st.entries i).sector := by
          intro i
          rw [bc_clean_entries]
          by_cases h : i = j <;> simp [h]
        calc bc_find (bc_clean st j).1 s
            = bc_find st s := by
              unfold bc_find
              congr 1
              funext i
              rw [hsec i]
          _ = none := hfind
      have hclean_nr : (bc_clean st j).1.num_ready = NUM_ENTRIES := by
        show incWrap (decWrap st.num_ready) = NUM_ENTRIES
        rw [hnr]
        exact incWrap_decWrap_num_entries
      have hclean_cand : get_eviction_candidate (bc_clean st j).1 = some j :=
        quiescent_candidate _ hclean_r hclean_nr j rest hrev
      have hclean_d : ((bc_clean st j).1.entries j).dirty = false := by
        rw [bc_clean_entries]
        simp
      have htr := bc_loop_blind_rename_trace s 1 (bc_clean st j).1 false hclean_r
        hclean_f j hclean_cand hclean_d
      refine ⟨j, ?_⟩
      rw [bc_loop_step, hfind]
      simp only
      rw [hcand]
      simp only
      rw [if_pos hd]
      simp only
      exact htr.2.1
    · have htr := bc_loop_blind_rename_trace s 2 st ih hr hfind j hcand
        (Bool.not_eq_true _ ▸ hd)
      exact ⟨j, htr.2.1⟩

theorem scanReadyFromBack_congr (st' st : Bufcache) (he : st'.entries = st.entries) :
    ∀ l, scanReadyFromBack st' l = scanReadyFromBack st l := by
  intro l
  induction l with
  | nil => rfl
  | cons a t IH => simp [scanReadyFromBack, he, IH]

theorem get_eviction_candidate_congr (st' st : Bufcache) (he : st'.entries = st.entries)
    (hl : st'.lru = st.lru) (hn : st'.num_ready = st.num_ready) :
    get_eviction_candidate st' = get_eviction_candidate st := by
  unfold get_eviction_candidate
  rw [hn, hl, scanReadyFromBack_congr st' st he]

/-- A cache in which no entry is mid-I/O: every slot ready, `num_ready`
full, and the LRU list non-empty (as after initialisation). -/
def Quiescent (st : Bufcache) : Prop :=
  (∀ i, (st.entries i).ready = true) ∧ st.num_ready = NUM_ENTRIES ∧ st.lru ≠ []

theorem bufcache_write_evs (st : Bufcache) (s : Nat) (buf : Nat → Nat) (off len : Nat) :
    (bufcache_write st s buf off len).evs
      = (bc_access (fun x => x) s (len == BLOCK_SECTOR_SIZE) BC_FUEL
          (lock_acquire st)).2.2 := by
  unfold bufcache_write
  cases h : (bc_access (fun x => x) s (len == BLOCK_SECTOR_SIZE) BC_FUEL
      (lock_acquire st)).2.1 <;> simp [h]

theorem bufcache_write_idx (st : Bufcache) (s : Nat) (buf : Nat → Nat) (off len : Nat) :
    (bufcache_write st s buf off len).idx
      = (bc_access (fun x => x) s (len == BLOCK_SECTOR_SIZE) BC_FUEL
          (lock_acquire st)).2.1 := by
  unfold bufcache_write
  cases h : (bc_access (fun x => x) s (len == BLOCK_SECTOR_SIZE) BC_FUEL
      (lock_acquire st)).2.1 <;> simp [h]

theorem bufcache_write_sector (st : Bufcache) (s : Nat) (buf : Nat → Nat) (off len : Nat)
    (i : Fin NUM_ENTRIES)
    (hidx : (bc_access (fun x => x) s (len == BLOCK_SECTOR_SIZE) BC_FUEL
        (lock_acquire st)).2.1 = some i) :
    ((bufcache_write st s buf off len).st.entries i).sector
      = ((bc_access (fun x => x) s (len == BLOCK_SECTOR_SIZE) BC_FUEL
          (lock_acquire st)).1.entries i).sector := by
  unfold bufcache_write
  dsimp only
  rw [hidx]
  simp [bc_upd, lock_release]

/-- C3: against a quiescent cache, a device read on the write path can only
happen when the length is below a full sector; a full-sector (blind) write
issues no device read at all and always leaves the target sector installed
in some entry; and when such a write misses and the eviction victim is
clean, the call performs no device traffic at all and installs the target
by renaming that victim entry in place. -/
theorem c3_blind_write_no_read (st : Bufcache) (hq : Quiescent st) (s : Nat)
    (buf : Nat → Nat) (off len : Nat) (hol : off + len ≤ BLOCK_SECTOR_SIZE) :
    (∀ t, IOEv.read t ∈ (bufcache_write st s buf off len).evs → len < BLOCK_SECTOR_SIZE)
    ∧ (len = BLOCK_SECTOR_SIZE →
        (∀ t, IOEv.read t ∉ (bufcache_write st s buf off len).evs)
        ∧ (∃ i, (bufcache_write st s buf off len).idx = some i
            ∧ ((bufcache_write st s buf off len).st.entries i).sector = s))
    ∧ (len = BLOCK_SECTOR_SIZE → bc_find st s = none →
        ∀ j, get_eviction_candidate st = some j → (st.entries j).dirty = false →
          (bufcache_write st s buf off len).evs = []
          ∧ (bufcache_write st s buf off len).idx = some j
          ∧ ((bufcache_write st s buf off len).st.entries j).sector = s) := by
  obtain ⟨hready, hnr, hlru⟩ := hq
  refine ⟨?_, ?_, ?_⟩
  · intro t hmem
    by_contra hnlt
    have hlen : len = BLOCK_SECTOR_SIZE := by omega
    subst hlen
    rw [bufcache_write_evs] at hmem
    exact bc_loop_blind_no_read (fun x => x) s BC_FUEL _ true t hmem
  · intro hlen
    subst hlen
    constructor
    · intro t hmem
      rw [bufcache_write_evs] at hmem
      exact bc_loop_blind_no_read (fun x => x) s BC_FUEL _ true t hmem
    · obtain ⟨j, rest, hrev⟩ : ∃ j rest, st.lru.reverse = j :: rest := by
        cases h : st.lru.reverse with
        | nil => exact absurd (by simpa using congrArg List.reverse h) hlru
        | cons j rest => exact ⟨j, rest, rfl⟩
      obtain ⟨i, hidx⟩ := bc_loop_blind_total s
        { lock_acquire st with num_accesses := (lock_acquire st).num_accesses + 1 }
        hready hnr j rest hrev true
      refine ⟨i, ?_, ?_⟩
      · rw [bufcache_write_idx]
        exact hidx
      · rw [bufcache_write_sector st s buf off BLOCK_SECTOR_SIZE i hidx]
        exact bc_loop_returns_match (fun x => x) s true (3 + 1) _ true i hidx
  · intro hlen hfind j hcand hdirty
    subst hlen
    have hfind1 : bc_find { lock_acquire st with
        num_accesses := (lock_acquire st).num_accesses + 1 } s = none :=
      (bc_find_congr _ st rfl s).trans hfind
    have hcand1 : get_eviction_candidate { lock_acquire st with
        num_accesses := (lock_acquire st).num_accesses + 1 } = some j :=
      (get_eviction_candidate_congr
        { lock_acquire st with num_accesses := (lock_acquire st).num_accesses + 1 } st
        rfl rfl rfl).trans hcand
    have hdirty1 : (({ lock_acquire st with
        num_accesses := (lock_acquire st).num_accesses + 1 } : Bufcache).entries j).dirty
        = false := hdirty
    have hready1 : ∀ i, (({ lock_acquire st with
        num_accesses := (lock_acquire st).num_accesses + 1 } : Bufcache).entries i).ready
        = true := hready
    have htr := bc_loop_blind_rename_trace s 2 _ true hready1 hfind1 j hcand1 hdirty1
    refine ⟨?_, ?_, ?_⟩
    · rw [bufcache_write_evs]
      exact htr.1
    · rw [bufcache_write_idx]
      exact htr.2.1
    · rw [bufcache_write_sector st s buf off BLOCK_SECTOR_SIZE j htr.2.1]
      exact htr.2.2

def c3_buf : Nat → Nat := fun k => k % 251

/-- Witness for C3 at the freshly initialised cache: a full-sector write of
sector 9 misses, the victim (entry 0, rearmost on the LRU) is clean, and
the call issues no device traffic and installs sector 9 by renaming entry 0
in place. -/
theorem c3_blind_write_no_read_witness :
    Quiescent bufcache_init
    ∧ (bufcache_write bufcache_init 9 c3_buf 0 BLOCK_SECTOR_SIZE).evs = []
    ∧ (bufcache_write bufcache_init 9 c3_buf 0 BLOCK_SECTOR_SIZE).idx
        = some (0 : Fin NUM_ENTRIES)
    ∧ ((bufcache_write bufcache_init 9 c3_buf 0 BLOCK_SECTOR_SIZE).st.entries
        (0 : Fin NUM_ENTRIES)).sector = 9 :=
  have hq : Quiescent bufcache_init := ⟨by decide, by decide, by decide⟩
  ⟨hq,
   (c3_blind_write_no_read bufcache_init hq 9 c3_buf 0 BLOCK_SECTOR_SIZE
      (by decide)).2.2 rfl (by decide) (0 : Fin NUM_ENTRIES) (by decide) (by decide)⟩
